import Mathlib

/-!
Verification of the DC resistivity sounding inversion tutorial
(`tutorials/temporary/plot_3a_dcr_sounding_layers_inv.py`) and of the
inversion-engine behaviour it relies on.

The tutorial script itself (survey construction from the observed-data rows,
the wire/exponential parameter maps, the starting model, the directive
configuration) is embedded directly from the source.  The SimPEG engine
pieces the script calls into (directives, data misfit, regularization,
optimizer) are not part of the source tree here, so they are modelled from
the specification; each such definition is marked `Modelled from the spec:`.
-/

namespace SimPEG

/-! ## Survey construction (script lines 58-82)

Each row of the observed-data file carries the A and B current-electrode
locations (columns 0:3 and 3:6), the M and N potential-electrode locations
(columns 6:9 and 9:12) and the datum (last column).  Coordinates are kept
abstract (any type with decidable equality), since the construction only
compares them for equality and stores them. -/

/-- A point in 3-d space: one electrode location. -/
abbrev Vec3 (α : Type) := α × α × α

/-- One row of the observed-data file `app_res_1d_data.dobs`. -/
structure DataRow (α : Type) where
  a_loc : Vec3 α
  b_loc : Vec3 α
  m_loc : Vec3 α
  n_loc : Vec3 α
  value : ℚ
deriving DecidableEq, Inhabited

variable {α : Type} [DecidableEq α] [Inhabited α]

/-- The current-electrode pair of a row: the row of `np.c_[a_electrodes, b_electrodes]`. -/
def abPair (r : DataRow α) : Vec3 α × Vec3 α := (r.a_loc, r.b_loc)

/-- Line 65, `np.unique(np.c_[a_electrodes, b_electrodes], axis=0, return_index=True)`:
for each distinct current-electrode pair, the index of its first occurrence.
`np.unique` lists these indices in value-sorted order and line 67 re-sorts them
by index; we record the same multiset here in ascending index order
(`List.range ... |>.filter` is ascending) and apply the sort of line 67 below. -/
def firstOccIndices (rows : List (DataRow α)) : List ℕ :=
  (List.range rows.length).filter
    (fun i => decide (abPair (rows.getD i default) ∉ (rows.take i).map abPair))

/-- Line 66, `n_tx = len(k)`: the number of distinct current-electrode pairs. -/
def n_tx (rows : List (DataRow α)) : ℕ := (firstOccIndices rows).length

/-- Line 67, `k = np.sort(k)`. -/
def kSorted (rows : List (DataRow α)) : List ℕ :=
  (firstOccIndices rows).insertionSort (· ≤ ·)

/-- Line 68, `k = np.r_[k, len(k)+1]`: the sorted first-occurrence indices with
`n_tx + 1` appended as the final slice endpoint. -/
def kFull (rows : List (DataRow α)) : List ℕ := kSorted rows ++ [n_tx rows + 1]

/-- Python slice `l[lo:hi]`: empty when `hi ≤ lo`, clamped to the length of `l`. -/
def pySlice {β : Type} (l : List β) (lo hi : ℕ) : List β := (l.drop lo).take (hi - lo)

/-- `dc.receivers.Dipole(m_locations, n_locations)`: one receiver object holding a
block of M/N potential-electrode pairs, one datum per pair. -/
structure DipoleReceiver (α : Type) where
  m_locations : List (Vec3 α)
  n_locations : List (Vec3 α)
deriving DecidableEq, Inhabited

/-- `dc.sources.Dipole(receiver_list, a_location, b_location)`. -/
structure DipoleSource (α : Type) where
  receiver_list : List (DipoleReceiver α)
  a_location : Vec3 α
  b_location : Vec3 α
deriving DecidableEq, Inhabited

/-- Lines 70-79: for each `ii < n_tx`, the receiver block is rows `k[ii] : k[ii+1]`
and the source electrodes are those of row `k[ii]`. -/
def source_list (rows : List (DataRow α)) : List (DipoleSource α) :=
  (List.range (n_tx rows)).map (fun ii =>
    let lo := (kFull rows).getD ii 0
    let hi := (kFull rows).getD (ii + 1) 0
    let block := pySlice rows lo hi
    { receiver_list := [⟨block.map DataRow.m_loc, block.map DataRow.n_loc⟩]
      a_location := (rows.getD lo default).a_loc
      b_location := (rows.getD lo default).b_loc })

/-- Line 82, `survey = dc.Survey(source_list)`. -/
structure Survey (α : Type) where
  source_list : List (DipoleSource α)
deriving DecidableEq

/-- The survey built by the script from the observed-data rows. -/
def mkSurvey (rows : List (DataRow α)) : Survey α := ⟨source_list rows⟩

/-- Number of data of a survey: one scalar per M/N pair of each receiver of each
source, in receiver-list order. -/
def Survey.nD (s : Survey α) : ℕ :=
  (s.source_list.map
    (fun src => (src.receiver_list.map (fun r => r.m_locations.length)).sum)).sum

/-- The observed-data vector in survey order: for each source in order, the data
of the rows of its receiver block. -/
def dataVector (rows : List (DataRow α)) : List ℚ :=
  ((List.range (n_tx rows)).map (fun ii =>
    (pySlice rows ((kFull rows).getD ii 0) ((kFull rows).getD (ii + 1) 0)).map
      DataRow.value)).flatten

/-- The observed-data rows are grouped by current-electrode pair: every row
either carries the same pair as the row before it, or opens a run with a pair
that has not occurred before.  Equal pairs therefore form contiguous runs. -/
def groupedByAB (rows : List (DataRow α)) : Prop :=
  ∀ i < rows.length,
    abPair (rows.getD i default) = abPair (rows.getD (i - 1) default) ∨
    abPair (rows.getD i default) ∉ (rows.take i).map abPair

/-! ## Parameter maps and starting model (script lines 120-141) -/

/-- `maps.Wires(('rho', nC), ('t', nC-1))`, `rho` component: the first `nC`
entries of the concatenated model vector. -/
def wires_rho {β : Type} (nC : ℕ) (m : List β) : List β := m.take nC

/-- `maps.Wires(('rho', nC), ('t', nC-1))`, `t` component: the `nC - 1` entries
following the `rho` block. -/
def wires_t {β : Type} (nC : ℕ) (m : List β) : List β := (m.drop nC).take (nC - 1)

/-- `maps.ExpMap`: elementwise exponential. -/
noncomputable def expMap (v : List ℝ) : List ℝ := v.map Real.exp

/-- Line 137, `resistivity_map = maps.ExpMap(nP=mesh.nC) * wire_map.rho`. -/
noncomputable def resistivity_map (nC : ℕ) (m : List ℝ) : List ℝ := expMap (wires_rho nC m)

/-- Line 138, `layer_map = maps.ExpMap(nP=mesh.nC-1) * wire_map.t`. -/
noncomputable def layer_map (nC : ℕ) (m : List ℝ) : List ℝ := expMap (wires_t nC m)

/-- Line 141, `starting_model = np.r_[np.log(resistivities), np.log(layer_thicknesses[:-1])]`. -/
noncomputable def starting_model (resistivities layer_thicknesses : List ℝ) : List ℝ :=
  resistivities.map Real.log ++ layer_thicknesses.dropLast.map Real.log

/-- Line 120: the tutorial's initial resistivities, `np.r_[1e3, 1e3, 1e3]`. -/
noncomputable def tutorialResistivities : List ℝ := [1000, 1000, 1000]

/-- Line 121: the tutorial's initial layer thicknesses, `np.r_[50., 50., 50.]`. -/
noncomputable def tutorialThicknesses : List ℝ := [50, 50, 50]

/-! ## Inversion controller and beta schedule (script lines 199-212)

The script configures `directives.BetaSchedule(coolingFactor=5., coolingRate=3.)`
and `directives.TargetMisfit(chifact=1.)` and runs `inversion.BaseInversion`.
The directive and controller code is not in the source tree; the loop below is
modelled from the specification. -/

/-- Termination status of an inversion run. -/
inductive InvStatus where
  | running
  | converged
  | max_iterations
deriving DecidableEq, Inhabited

/-- State of the inversion controller between outer iterations. -/
structure InvState (M : Type) where
  model : M
  beta : ℚ
  iter : ℕ
  status : InvStatus

/-- Configuration of the inversion controller: the data-misfit functional, the
optimizer step (one outer Gauss-Newton iteration at the current beta), the
target chi-factor, the number of data, and the beta cooling schedule. -/
structure InvConfig (M : Type) where
  phi_d : M → ℚ
  stepf : ℚ → M → M
  chifact : ℚ
  nD : ℕ
  coolingFactor : ℚ
  coolingRate : ℕ

/-- Modelled from the spec: one outer iteration of `inversion.BaseInversion`
with the `BetaSchedule` and `TargetMisfit` directives (engine code not under
`src/`).  The optimizer produces the next model; if the data misfit satisfies
`phi_d ≤ chifact * nD` the run stops with status `converged`; otherwise, after
every `coolingRate` outer iterations beta is divided by `coolingFactor`. -/
def outerStep {M : Type} (cfg : InvConfig M) (s : InvState M) : InvState M :=
  let m2 := cfg.stepf s.beta s.model
  let k := s.iter + 1
  if cfg.phi_d m2 ≤ cfg.chifact * cfg.nD then
    { model := m2, beta := s.beta, iter := k, status := .converged }
  else
    { model := m2
      beta := if k % cfg.coolingRate = 0 then s.beta / cfg.coolingFactor else s.beta
      iter := k
      status := .running }

/-- Modelled from the spec: the outer loop of `inversion.BaseInversion`
(engine code not under `src/`), with the maximum-outer-iteration budget as
fuel; a run whose state is no longer `running` performs no further outer
iterations. -/
def runInv {M : Type} (cfg : InvConfig M) : ℕ → InvState M → InvState M
  | 0, s => if s.status = .running then { s with status := .max_iterations } else s
  | fuel + 1, s =>
    if s.status = .running then runInv cfg fuel (outerStep cfg s) else s

/-! ## Data misfit (script lines 102, 166-167)

`data_misfit.L2DataMisfit` is engine code not under `src/`; it is modelled from
the specification: `phi_d(m) = ||W (d_pred(m) - d_obs)||^2` with
`W = diag(1/sigma)` fixed at construction, and every uncertainty must be
strictly positive, else construction fails with `InvalidUncertaintyError`
before any iteration runs. -/

/-- Errors raised at construction time. -/
inductive InvError where
  | InvalidUncertaintyError
deriving DecidableEq

/-- The data-misfit object: the weight vector `1/sigma` and the observed data. -/
structure L2DataMisfit where
  W : List ℚ
  dobs : List ℚ
deriving DecidableEq

/-- Modelled from the spec: the constructor of `data_misfit.L2DataMisfit` with
`W = 1./uncertainties` (script lines 166-167; engine code not under `src/`).
It fails with `InvalidUncertaintyError` when some uncertainty is non-positive,
and otherwise fixes `W = diag(1/sigma)` for the run. -/
def mkL2DataMisfit (uncertainties dobs : List ℚ) : Except InvError L2DataMisfit :=
  if uncertainties.any (fun s => decide (s ≤ 0)) then
    .error .InvalidUncertaintyError
  else
    .ok ⟨uncertainties.map (fun s => 1 / s), dobs⟩

/-- Line 102, `uncertainties = 0.025*dobs`. -/
def tutorialUncertainties (dobs : List ℚ) : List ℚ := dobs.map (fun x => (1 / 40) * x)

/-- Modelled from the spec: construction of the data misfit happens before the
outer loop starts, so a failed construction yields the error and the inversion
is never run. -/
def inversionPipeline {M : Type} (uncertainties dobs : List ℚ) (cfg : InvConfig M)
    (fuel : ℕ) (s0 : InvState M) : Except InvError (InvState M) :=
  (mkL2DataMisfit uncertainties dobs).map (fun _ => runInv cfg fuel s0)

/-- Modelled from the spec: the weight matrix `W = diag(1/sigma)` built once
from the uncertainties (script line 167). -/
def Wmatrix {n : ℕ} (sigma : Fin n → ℚ) : Matrix (Fin n) (Fin n) ℚ :=
  Matrix.diagonal (fun i => 1 / sigma i)

/-- Modelled from the spec: `phi_d(m) = ||W (d_pred(m) - d_obs)||^2` for the
fixed weight matrix `W = diag(1/sigma)` (engine code not under `src/`). -/
def phi_d {n : ℕ} {M : Type} (dpred : M → Fin n → ℚ) (dobs sigma : Fin n → ℚ)
    (m : M) : ℚ :=
  ∑ i, ((Wmatrix sigma).mulVec (dpred m - dobs) i) ^ 2

/-! ## Regularization (script lines 175-185)

`regularization.Simple` is engine code not under `src/`; each block penalty is
modelled from the specification as
`alpha_s * ||v - v_ref||^2 + alpha_x * ||D (v - v_ref)||^2` with `D` the
first-difference operator between adjacent cells. -/

/-- Squared distance to the reference block: `||v - vref||^2`. -/
def smallness (v vref : List ℚ) : ℚ :=
  (List.zipWith (fun a b => (a - b) ^ 2) v vref).sum

/-- First differences between adjacent entries. -/
def firstDiff (v : List ℚ) : List ℚ := List.zipWith (fun a b => b - a) v v.tail

/-- Squared norm of the first differences of `v - vref`: `||D (v - vref)||^2`. -/
def smoothness (v vref : List ℚ) : ℚ :=
  ((firstDiff (List.zipWith (fun a b => a - b) v vref)).map (fun x => x ^ 2)).sum

/-- Modelled from the spec: one `regularization.Simple` block penalty
(engine code not under `src/`). -/
def simpleReg (alpha_s alpha_x : ℚ) (v vref : List ℚ) : ℚ :=
  alpha_s * smallness v vref + alpha_x * smoothness v vref

/-- Lines 175-185: `reg = reg_rho + reg_t`, the resistivity-block penalty
(`alpha_s=1, alpha_x=0.0001`, mapping `wire_map.rho`) plus the thickness-block
penalty (`alpha_s=1, alpha_x=0.01`, mapping `wire_map.t`), each evaluated on
its block of the model against the same block of the reference model. -/
def reg_total (L : ℕ) (m mref : List ℚ) : ℚ :=
  simpleReg 1 (1 / 10000) (wires_rho L m) (wires_rho L mref)
    + simpleReg 1 (1 / 100) (wires_t L m) (wires_t L mref)

/-- Modelled from the spec: `m_ref` defaults to the starting model `m0` when
not explicitly set. -/
def regWithDefault (L : ℕ) (mrefOpt : Option (List ℚ)) (m0 m : List ℚ) : ℚ :=
  reg_total L m (mrefOpt.getD m0)

/-! ## Optimizer line search (script lines 189-195)

`optimization.InexactGaussNewton` is engine code not under `src/`; its
backtracking line search with the sufficient-decrease (Armijo) condition is
modelled from the specification. -/

/-- Elementwise sum of two vectors. -/
def vadd (x y : List ℚ) : List ℚ := List.zipWith (fun a b => a + b) x y

/-- Scalar multiple of a vector. -/
def smul (t : ℚ) (p : List ℚ) : List ℚ := p.map (fun x => t * x)

/-- Modelled from the spec: the backtracking line search of
`optimization.InexactGaussNewton` (engine code not under `src/`).  Starting
from step length `t`, it accepts the first step satisfying the
sufficient-decrease condition `Phi(m + t p) ≤ Phi(m) + c t g` (`g` the
directional derivative of `Phi` along `p`, `c` the sufficient-decrease
constant), halving `t` otherwise; it fails after `fuel` trials, i.e. once the
step length falls below the minimum bound. -/
def backtrack (Phi : List ℚ → ℚ) (m p : List ℚ) (g c : ℚ) :
    ℕ → ℚ → Option ℚ
  | 0, _ => none
  | fuel + 1, t =>
    if Phi (vadd m (smul t p)) ≤ Phi m + c * (t * g) then some t
    else backtrack Phi m p g c fuel (t / 2)

/-- Outcome of one outer optimizer iteration. -/
inductive StepResult where
  | accepted (m2 : List ℚ)
  | lineSearchFailure
deriving DecidableEq

/-- Modelled from the spec: one outer iteration of the inexact Gauss-Newton
optimizer after the search direction `p` has been computed: line search from
unit step, producing `m + t p` when a step is accepted and reporting a
line-search failure otherwise. -/
def gnIteration (Phi : List ℚ → ℚ) (m p : List ℚ) (g c : ℚ) (maxLS : ℕ) :
    StepResult :=
  match backtrack Phi m p g c maxLS 1 with
  | some t => .accepted (vadd m (smul t p))
  | none => .lineSearchFailure

/-- What one outer optimizer iteration must satisfy: an accepted step does not
increase the objective, and a failure outcome means the line search exhausted
its budget without finding a sufficient-decrease step. -/
def stepSpec (Phi : List ℚ → ℚ) (m p : List ℚ) (g c : ℚ) (maxLS : ℕ) :
    StepResult → Prop
  | .accepted m2 => Phi m2 ≤ Phi m
  | .lineSearchFailure => backtrack Phi m p g c maxLS 1 = none

/-! ## Concrete observed-data files used in the theorems -/

/-- An observed-data file with three rows all sharing one current-electrode
pair (a single source with three potential-electrode pairs); the rows are
grouped by current-electrode pair. -/
def rowsBug : List (DataRow ℤ) :=
  [⟨(0,0,0), (9,0,0), (1,0,0), (2,0,0), 1⟩,
   ⟨(0,0,0), (9,0,0), (3,0,0), (4,0,0), 2⟩,
   ⟨(0,0,0), (9,0,0), (5,0,0), (6,0,0), 3⟩]

/-- An observed-data file whose first current-electrode pair is
lexicographically larger than its second: first-occurrence order and
coordinate order disagree. -/
def rowsOrd : List (DataRow ℤ) :=
  [⟨(9,0,0), (9,9,0), (1,0,0), (2,0,0), 5⟩,
   ⟨(1,0,0), (1,9,0), (3,0,0), (4,0,0), 6⟩]

/-! ## Helper lemmas -/

theorem firstOccIndices_sorted (rows : List (DataRow α)) :
    List.Sorted (· < ·) (firstOccIndices rows) :=
  List.Pairwise.filter _ (List.pairwise_lt_range rows.length)

theorem length_firstOccIndices_le (rows : List (DataRow α)) :
    (firstOccIndices rows).length ≤ rows.length := by
  calc (firstOccIndices rows).length
      ≤ (List.range rows.length).length := List.length_filter_le _ _
    _ = rows.length := List.length_range _

theorem kSorted_eq (rows : List (DataRow α)) :
    kSorted rows = firstOccIndices rows := by
  apply List.eq_of_perm_of_sorted (r := fun a b : ℕ => a ≤ b)
  · exact List.perm_insertionSort _ _
  · exact List.sorted_insertionSort _ _
  · exact List.Pairwise.imp (fun h => le_of_lt h) (firstOccIndices_sorted rows)

theorem kSorted_length (rows : List (DataRow α)) :
    (kSorted rows).length = n_tx rows := by
  rw [kSorted_eq]; rfl

theorem mem_firstOccIndices (rows : List (DataRow α)) (i : ℕ) :
    i ∈ firstOccIndices rows ↔
      i < rows.length ∧ abPair (rows.getD i default) ∉ (rows.take i).map abPair := by
  simp [firstOccIndices, List.mem_filter, List.mem_range, decide_eq_true_iff]

theorem source_list_length (rows : List (DataRow α)) :
    (source_list rows).length = n_tx rows := by
  simp [source_list]

theorem kFull_getD_of_lt (rows : List (DataRow α)) (ii : ℕ) (h : ii < n_tx rows) :
    (kFull rows).getD ii 0 = (kSorted rows).getD ii 0 := by
  unfold kFull
  exact List.getD_append _ _ _ _ (by rw [kSorted_length]; exact h)

theorem source_list_getD (rows : List (DataRow α)) (ii : ℕ) (h : ii < n_tx rows) :
    (source_list rows).getD ii default =
      { receiver_list :=
          [⟨(pySlice rows ((kSorted rows).getD ii 0) ((kFull rows).getD (ii + 1) 0)).map
              DataRow.m_loc,
            (pySlice rows ((kSorted rows).getD ii 0) ((kFull rows).getD (ii + 1) 0)).map
              DataRow.n_loc⟩]
        a_location := (rows.getD ((kSorted rows).getD ii 0) default).a_loc
        b_location := (rows.getD ((kSorted rows).getD ii 0) default).b_loc } := by
  have hlen : ii < (source_list rows).length := by
    rw [source_list_length]; exact h
  rw [List.getD_eq_getElem _ _ hlen]
  unfold source_list
  simp only [List.getElem_map, List.getElem_range]
  rw [kFull_getD_of_lt rows ii h]

/-! ## Claim theorems -/

/-- **C10**: sources are placed in the survey in the order in which their
current-electrode pair first occurs in the observed-data rows: the
first-occurrence indices from the unique-row computation are sorted before the
sources are built, and the `ii`-th source takes its electrodes from the row at
the `ii`-th sorted first-occurrence index and its receivers from the contiguous
block of data rows starting there — not in the lexicographic order of the
electrode coordinates (on `rowsOrd` the first source carries the
lexicographically larger pair, because it occurs first). -/
theorem C10_source_ordering (rows : List (DataRow α)) :
    kSorted rows = firstOccIndices rows ∧
    List.Sorted (· < ·) (kSorted rows) ∧
    (∀ i, i ∈ kSorted rows ↔
      i < rows.length ∧ abPair (rows.getD i default) ∉ (rows.take i).map abPair) ∧
    (source_list rows).length = n_tx rows ∧
    (∀ ii, ii < n_tx rows →
      ((source_list rows).getD ii default).a_location
          = (rows.getD ((kSorted rows).getD ii 0) default).a_loc ∧
      ((source_list rows).getD ii default).b_location
          = (rows.getD ((kSorted rows).getD ii 0) default).b_loc ∧
      ((source_list rows).getD ii default).receiver_list
          = [⟨(pySlice rows ((kSorted rows).getD ii 0) ((kFull rows).getD (ii + 1) 0)).map
                DataRow.m_loc,
              (pySlice rows ((kSorted rows).getD ii 0) ((kFull rows).getD (ii + 1) 0)).map
                DataRow.n_loc⟩]) ∧
    (source_list rowsOrd).map DipoleSource.a_location = [(9,0,0), (1,0,0)] := by
  refine ⟨kSorted_eq rows, ?_, ?_, source_list_length rows, ?_, by decide⟩
  · rw [kSorted_eq]; exact firstOccIndices_sorted rows
  · intro i; rw [kSorted_eq]; exact mem_firstOccIndices rows i
  · intro ii h
    rw [source_list_getD rows ii h]
    exact ⟨rfl, rfl, rfl⟩

/-- Witness for C10 at the concrete file `rowsBug`: its single source takes its
current electrodes from the row at the first sorted first-occurrence index. -/
theorem C10_source_ordering_witness :
    0 < n_tx rowsBug ∧
    ((source_list rowsBug).getD 0 default).a_location
      = (rowsBug.getD ((kSorted rowsBug).getD 0 0) default).a_loc :=
  ⟨by decide, ((C10_source_ordering rowsBug).2.2.2.2.1 0 (by decide)).1⟩

/-- **C3**: the claim fails on the code.  Line 68 builds the slice endpoints as
`k = np.r_[k, len(k)+1]`, appending `n_tx + 1` instead of the number of data
rows, so on a grouped observed-data file whose rows are not exhausted by index
`n_tx + 1` the last source's receiver block is truncated: on `rowsBug`
(three rows, one current-electrode pair) the survey has 2 data and the data
vector is `[1, 2]`, while the file has 3 rows — row 2 is assigned to no
receiver of any source. -/
theorem C3_last_source_truncated :
    groupedByAB rowsBug ∧ rowsBug.length = 3 ∧
      (mkSurvey rowsBug).nD = 2 ∧ dataVector rowsBug = [1, 2] := by
  refine ⟨?_, by decide, by decide, by decide⟩
  unfold groupedByAB
  intro i hi
  have h3 : i < 3 := by simpa [rowsBug] using hi
  interval_cases i <;> decide

/-- **C4**: for a layered-earth model with `L` layers the optimizer-space model
vector is the concatenation of `L` log-resistivity entries and `L - 1`
log-thickness entries (no thickness for the bottom layer), so its length is
`2L - 1`; with the tutorial's `L = 3` the starting model has length 5; and the
wire map splits any model vector of that length back into blocks of exactly
these sizes, whose concatenation restores the vector. -/
theorem C4_model_vector_length (L : ℕ) (hL : 0 < L) (res thick : List ℝ)
    (hres : res.length = L) (hthick : thick.length = L) :
    (starting_model res thick).length = 2 * L - 1 ∧
    (starting_model tutorialResistivities tutorialThicknesses).length = 5 ∧
    ∀ m : List ℝ, m.length = 2 * L - 1 →
      (wires_rho L m).length = L ∧ (wires_t L m).length = L - 1 ∧
      wires_rho L m ++ wires_t L m = m := by
  refine ⟨?_, rfl, ?_⟩
  · simp only [starting_model, List.length_append, List.length_map,
      List.length_dropLast, hres, hthick]
    omega
  · intro m hm
    have h1 : (wires_rho L m).length = L := by
      simp only [wires_rho, List.length_take]
      omega
    have h2 : (wires_t L m).length = L - 1 := by
      simp only [wires_t, List.length_take, List.length_drop]
      omega
    refine ⟨h1, h2, ?_⟩
    have hdrop : (m.drop L).take (L - 1) = m.drop L :=
      List.take_of_length_le (by simp only [List.length_drop]; omega)
    rw [wires_rho, wires_t, hdrop, List.take_append_drop]

/-- Witness for C4 at the tutorial's starting model (`L = 3`). -/
theorem C4_model_vector_length_witness :
    0 < 3 ∧ tutorialResistivities.length = 3 ∧ tutorialThicknesses.length = 3 ∧
    (starting_model tutorialResistivities tutorialThicknesses).length = 2 * 3 - 1 :=
  ⟨by decide, rfl, rfl,
    (C4_model_vector_length 3 (by decide) tutorialResistivities tutorialThicknesses
      rfl rfl).1⟩

theorem expMap_map_log (v : List ℝ) (hv : ∀ x ∈ v, 0 < x) :
    expMap (v.map Real.log) = v := by
  unfold expMap
  rw [List.map_map]
  calc v.map (Real.exp ∘ Real.log)
      = v.map id := List.map_congr_left (fun a ha => by
        simpa using Real.exp_log (hv a ha))
    _ = v := List.map_id v

/-- **C5**: the parameter transform is the composition of the wiring split with
an elementwise exponential per block, and it round-trips: elementwise log of
the transform's output returns the wired block of the input, for every model
vector; and applying the resistivity and layer maps to the starting model
(logs of the initial resistivities and thicknesses) recovers exactly those
strictly positive physical values. -/
theorem C5_transform_roundtrip (nC : ℕ) (res thick : List ℝ)
    (hres : ∀ r ∈ res, 0 < r) (hthick : ∀ t ∈ thick, 0 < t)
    (hlr : res.length = nC) (hlt : thick.length = nC) :
    (∀ m : List ℝ, (resistivity_map nC m).map Real.log = wires_rho nC m ∧
        (layer_map nC m).map Real.log = wires_t nC m) ∧
    resistivity_map nC (starting_model res thick) = res ∧
    layer_map nC (starting_model res thick) = thick.dropLast := by
  refine ⟨?_, ?_, ?_⟩
  · intro m
    constructor <;>
      simp [resistivity_map, layer_map, expMap, List.map_map, Function.comp_def,
        Real.log_exp]
  · unfold resistivity_map wires_rho starting_model
    rw [List.take_left' (by simpa using hlr)]
    exact expMap_map_log res hres
  · unfold layer_map wires_t starting_model
    rw [List.drop_left' (by simpa using hlr)]
    rw [List.take_of_length_le (by
      simp only [List.length_map, List.length_dropLast, hlt]; omega)]
    exact expMap_map_log _
      (fun x hx => hthick x ((List.dropLast_sublist thick).subset hx))

/-- Witness for C5 at the tutorial's starting model. -/
theorem C5_transform_roundtrip_witness :
    (∀ r ∈ tutorialResistivities, 0 < r) ∧ (∀ t ∈ tutorialThicknesses, 0 < t) ∧
    resistivity_map 3 (starting_model tutorialResistivities tutorialThicknesses)
      = tutorialResistivities :=
  ⟨fun r hr => by fin_cases hr <;> norm_num,
   fun t ht => by fin_cases ht <;> norm_num,
   (C5_transform_roundtrip 3 tutorialResistivities tutorialThicknesses
      (fun r hr => by fin_cases hr <;> norm_num)
      (fun t ht => by fin_cases ht <;> norm_num) rfl rfl).2.1⟩

theorem runInv_stopped {M : Type} (cfg : InvConfig M) (fuel : ℕ) (s : InvState M)
    (h : s.status ≠ .running) : runInv cfg fuel s = s := by
  cases fuel <;> simp [runInv, h]

/-- **C1**: after an outer iteration in which the data misfit satisfies
`phi_d(m_k) ≤ chifact * nD`, the run terminates with status `converged` and
performs no further outer iterations: whatever iteration budget remains, the
final state is exactly the state produced by that one iteration, with status
`converged` and the iteration counter advanced once.  In particular a run
started at a state whose first iteration already meets the target stops after
one outer iteration. -/
theorem C1_target_misfit_stops {M : Type} (cfg : InvConfig M) (s : InvState M)
    (hrun : s.status = .running)
    (hfit : cfg.phi_d (cfg.stepf s.beta s.model) ≤ cfg.chifact * cfg.nD)
    (fuel : ℕ) (hfuel : 0 < fuel) :
    runInv cfg fuel s =
      { model := cfg.stepf s.beta s.model, beta := s.beta, iter := s.iter + 1,
        status := .converged } := by
  obtain ⟨n, rfl⟩ : ∃ n, fuel = n + 1 := ⟨fuel - 1, by omega⟩
  have hstep : outerStep cfg s =
      { model := cfg.stepf s.beta s.model, beta := s.beta, iter := s.iter + 1,
        status := .converged } := by
    simp [outerStep, hfit]
  rw [runInv, if_pos hrun, hstep]
  exact runInv_stopped cfg n _ (by simp)

/-- Witness for C1: a run whose misfit functional is identically `0` against a
target of `1` terminates converged after one outer iteration, with six units
of budget left over. -/
theorem C1_target_misfit_stops_witness :
    (InvState.status (M := ℚ) ⟨0, 1, 0, .running⟩ = .running) ∧
    (InvConfig.phi_d (M := ℚ) ⟨fun _ => 0, fun _ m => m, 1, 1, 5, 3⟩ 0 ≤ 1 * 1) ∧
    (0 < 7) ∧
    runInv (M := ℚ) ⟨fun _ => 0, fun _ m => m, 1, 1, 5, 3⟩ 7 ⟨0, 1, 0, .running⟩
      = ⟨0, 1, 1, .converged⟩ :=
  ⟨rfl, by norm_num, by decide,
    C1_target_misfit_stops (M := ℚ) ⟨fun _ => 0, fun _ m => m, 1, 1, 5, 3⟩
      ⟨0, 1, 0, .running⟩ rfl (by norm_num) 7 (by decide)⟩

theorem outerStep_beta_le {M : Type} (cfg : InvConfig M) (s : InvState M)
    (hcf : 1 < cfg.coolingFactor) (hb : 0 < s.beta) :
    (outerStep cfg s).beta ≤ s.beta ∧ 0 < (outerStep cfg s).beta := by
  unfold outerStep
  by_cases hfit : cfg.phi_d (cfg.stepf s.beta s.model) ≤ cfg.chifact * cfg.nD
  · simp only [hfit, if_true]
    exact ⟨le_refl _, hb⟩
  · simp only [hfit, if_false]
    by_cases hcool : (s.iter + 1) % cfg.coolingRate = 0
    · simp only [hcool, if_true]
      exact ⟨le_of_lt (div_lt_self hb hcf),
        div_pos hb (lt_trans zero_lt_one hcf)⟩
    · simp only [hcool, if_false]
      exact ⟨le_refl _, hb⟩

theorem runInv_beta_le {M : Type} (cfg : InvConfig M)
    (hcf : 1 < cfg.coolingFactor) :
    ∀ (fuel : ℕ) (s : InvState M), 0 < s.beta →
      (runInv cfg fuel s).beta ≤ s.beta := by
  intro fuel
  induction fuel with
  | zero =>
    intro s _
    by_cases h : s.status = .running <;> simp [runInv, h]
  | succ n ih =>
    intro s hb
    by_cases h : s.status = .running
    · rw [runInv, if_pos h]
      obtain ⟨h1, h2⟩ := outerStep_beta_le cfg s hcf hb
      exact le_trans (ih (outerStep cfg s) h2) h1
    · rw [runInv, if_neg h]

/-- **C2**: beta never increases across a run — with a cooling factor greater
than `1` and a positive beta, the final beta after any iteration budget is at
most the initial beta — and at every cooling event (an outer iteration that
does not meet the target and whose index is a multiple of the cooling rate)
beta is divided by the cooling factor and is strictly smaller than before. -/
theorem C2_beta_cooling {M : Type} (cfg : InvConfig M) (s : InvState M)
    (hcf : 1 < cfg.coolingFactor) (hb : 0 < s.beta) :
    (∀ fuel : ℕ, (runInv cfg fuel s).beta ≤ s.beta) ∧
    (¬ cfg.phi_d (cfg.stepf s.beta s.model) ≤ cfg.chifact * cfg.nD →
      (s.iter + 1) % cfg.coolingRate = 0 →
      (outerStep cfg s).beta = s.beta / cfg.coolingFactor ∧
      (outerStep cfg s).beta < s.beta) := by
  constructor
  · intro fuel
    exact runInv_beta_le cfg hcf fuel s hb
  · intro hfit hcool
    have hbeta : (outerStep cfg s).beta = s.beta / cfg.coolingFactor := by
      simp [outerStep, hfit, hcool]
    exact ⟨hbeta, hbeta ▸ div_lt_self hb hcf⟩

/-- Witness for C2: with cooling factor `5`, cooling rate `1`, beta `1` and a
misfit that never meets the target, the first outer iteration is a cooling
event and beta drops to `1/5` while a 4-iteration run never exceeds `1`. -/
theorem C2_beta_cooling_witness :
    (1 < (5 : ℚ)) ∧ (0 < (1 : ℚ)) ∧
    (runInv (M := ℚ) ⟨fun _ => 10, fun _ m => m, 1, 1, 5, 1⟩ 4
      ⟨0, 1, 0, .running⟩).beta ≤ 1 ∧
    (outerStep (M := ℚ) ⟨fun _ => 10, fun _ m => m, 1, 1, 5, 1⟩
      ⟨0, 1, 0, .running⟩).beta = 1 / 5 :=
  ⟨by norm_num, by norm_num,
    (C2_beta_cooling (M := ℚ) ⟨fun _ => 10, fun _ m => m, 1, 1, 5, 1⟩
      ⟨0, 1, 0, .running⟩ (by norm_num) (by norm_num)).1 4,
    ((C2_beta_cooling (M := ℚ) ⟨fun _ => 10, fun _ m => m, 1, 1, 5, 1⟩
      ⟨0, 1, 0, .running⟩ (by norm_num) (by norm_num)).2
        (by norm_num) (by norm_num)).1⟩

theorem mkL2DataMisfit_error_iff (u dd : List ℚ) :
    mkL2DataMisfit u dd = .error .InvalidUncertaintyError ↔ ∃ s ∈ u, s ≤ 0 := by
  unfold mkL2DataMisfit
  cases hany : u.any (fun s => decide (s ≤ 0)) with
  | false =>
    rw [List.any_eq_false] at hany
    simp only [decide_eq_true_iff] at hany
    simp only [Bool.false_eq_true, if_false]
    constructor
    · intro h
      exact absurd h (by simp)
    · rintro ⟨s, hs, hs0⟩
      exact absurd hs0 (hany s hs)
  | true =>
    rw [List.any_eq_true] at hany
    simp only [decide_eq_true_iff] at hany
    simp [hany]

/-- **C6**: constructing the data misfit fails with `InvalidUncertaintyError`
if and only if some entry of the uncertainty vector is non-positive; the
failure happens at construction time, before any outer iteration executes (the
pipeline returns the error without running the loop); and with the tutorial's
uncertainties `0.025 * dobs`, any non-positive observed datum triggers the
error before the inversion starts. -/
theorem C6_uncertainty_validation (sigma d : List ℚ) :
    (mkL2DataMisfit sigma d = .error .InvalidUncertaintyError ↔
      ∃ s ∈ sigma, s ≤ 0) ∧
    (∀ (M : Type) (cfg : InvConfig M) (fuel : ℕ) (s0 : InvState M),
      (∃ s ∈ sigma, s ≤ 0) →
      inversionPipeline sigma d cfg fuel s0 = .error .InvalidUncertaintyError) ∧
    (∀ x ∈ d, x ≤ 0 →
      mkL2DataMisfit (tutorialUncertainties d) d
        = .error .InvalidUncertaintyError) := by
  refine ⟨mkL2DataMisfit_error_iff sigma d, ?_, ?_⟩
  · intro M cfg fuel s0 hex
    have herr := (mkL2DataMisfit_error_iff sigma d).2 hex
    rw [inversionPipeline, herr]
    rfl
  · intro x hx hx0
    refine (mkL2DataMisfit_error_iff (tutorialUncertainties d) d).2 ?_
    refine ⟨(1 / 40) * x, ?_, ?_⟩
    · exact List.mem_map_of_mem _ hx
    · exact mul_nonpos_of_nonneg_of_nonpos (by norm_num) hx0

/-- Witness for C6 at a concrete uncertainty vector with a negative entry. -/
theorem C6_uncertainty_validation_witness :
    (∃ s ∈ [(1 : ℚ), -1], s ≤ 0) ∧
    mkL2DataMisfit [(1 : ℚ), -1] [2] = .error .InvalidUncertaintyError :=
  ⟨by decide, (C6_uncertainty_validation [(1 : ℚ), -1] [2]).1.2 (by decide)⟩

/-- **C7**: for every model and every strictly positive uncertainty vector,
the data misfit is `phi_d(m) = ||W (d_pred(m) - d_obs)||^2` with
`W = diag(1/sigma)` built once from the uncertainties: it equals the sum over
the data of the squared sigma-weighted residuals. -/
theorem C7_weighted_misfit {n : ℕ} {M : Type} (dpred : M → Fin n → ℚ)
    (dobs sigma : Fin n → ℚ) (hs : ∀ i, 0 < sigma i) (m : M) :
    phi_d dpred dobs sigma m = ∑ i, ((dpred m i - dobs i) / sigma i) ^ 2 := by
  unfold phi_d Wmatrix
  refine Finset.sum_congr rfl (fun i _ => ?_)
  rw [Matrix.mulVec_diagonal, Pi.sub_apply]
  ring

/-- Witness for C7 at a one-datum misfit. -/
theorem C7_weighted_misfit_witness :
    (∀ i : Fin 1, 0 < (fun _ : Fin 1 => (1 : ℚ)) i) ∧
    phi_d (n := 1) (M := Unit) (fun _ _ => 2) (fun _ => 1) (fun _ => 1) ()
      = ∑ i : Fin 1, (((2 : ℚ) - 1) / 1) ^ 2 :=
  ⟨by decide,
    C7_weighted_misfit (n := 1) (M := Unit) (fun _ _ => 2) (fun _ => 1)
      (fun _ => 1) (by decide) ()⟩

theorem zipWith_sub_self (v : List ℚ) :
    List.zipWith (fun a b => a - b) v v = List.replicate v.length 0 := by
  rw [List.zipWith_same]
  simp [sub_self]

theorem smallness_self (v : List ℚ) : smallness v v = 0 := by
  unfold smallness
  rw [List.zipWith_same]
  simp

theorem smoothness_self (v : List ℚ) : smoothness v v = 0 := by
  unfold smoothness
  rw [zipWith_sub_self]
  unfold firstDiff
  rw [List.tail_replicate, List.zipWith_replicate]
  simp

/-- **C8**: the total regularization is the sum of the two independent block
penalties — the resistivity block with `alpha_s = 1, alpha_x = 0.0001` and the
thickness block with `alpha_s = 1, alpha_x = 0.01`, each of the form
`alpha_s * ||v - v_ref||^2 + alpha_x * ||D (v - v_ref)||^2` — and it vanishes
at the reference model, where the reference defaults to the starting model
when not explicitly set. -/
theorem C8_regularization (L : ℕ) (m mref m0 : List ℚ) :
    reg_total L m mref =
      simpleReg 1 (1 / 10000) (wires_rho L m) (wires_rho L mref)
        + simpleReg 1 (1 / 100) (wires_t L m) (wires_t L mref) ∧
    reg_total L mref mref = 0 ∧
    regWithDefault L none m0 m0 = 0 ∧
    regWithDefault L (some mref) m0 mref = 0 := by
  refine ⟨rfl, ?_, ?_, ?_⟩ <;>
    simp [regWithDefault, reg_total, simpleReg, smallness_self, smoothness_self]

theorem backtrack_le (Phi : List ℚ → ℚ) (m p : List ℚ) (g c : ℚ)
    (hc : 0 ≤ c) (hg : g ≤ 0) :
    ∀ (fuel : ℕ) (t t' : ℚ), 0 ≤ t →
      backtrack Phi m p g c fuel t = some t' →
      Phi (vadd m (smul t' p)) ≤ Phi m := by
  intro fuel
  induction fuel with
  | zero =>
    intro t t' _ h
    cases h
  | succ n ih =>
    intro t t' ht h
    rw [backtrack] at h
    by_cases hdec : Phi (vadd m (smul t p)) ≤ Phi m + c * (t * g)
    · rw [if_pos hdec] at h
      cases h
      have h1 : t * g ≤ 0 := mul_nonpos_of_nonneg_of_nonpos ht hg
      have h2 : c * (t * g) ≤ 0 := mul_nonpos_of_nonneg_of_nonpos hc h1
      linarith
    · rw [if_neg hdec] at h
      exact ih (t / 2) t' (by linarith) h

/-- **C9**: whenever the inexact Gauss-Newton outer iteration accepts a step,
the combined objective does not increase, `Phi(m_next) ≤ Phi(m)`; and when no
step length within the budget satisfies the sufficient-decrease condition, the
iteration reports a line-search failure instead of accepting a step. -/
theorem C9_line_search (Phi : List ℚ → ℚ) (m p : List ℚ) (g c : ℚ) (maxLS : ℕ)
    (hc : 0 ≤ c) (hg : g ≤ 0) :
    stepSpec Phi m p g c maxLS (gnIteration Phi m p g c maxLS) := by
  unfold gnIteration
  cases hbt : backtrack Phi m p g c maxLS 1 with
  | none =>
    simpa only [stepSpec] using hbt
  | some t =>
    simp only [stepSpec]
    exact backtrack_le Phi m p g c hc hg maxLS 1 t (by norm_num) hbt

/-- Witness for C9: descent direction on a summing objective, with zero
sufficient-decrease constant and non-positive slope. -/
theorem C9_line_search_witness :
    (0 : ℚ) ≤ 0 ∧ (-1 : ℚ) ≤ 0 ∧
    stepSpec List.sum [0] [-1] (-1) 0 3 (gnIteration List.sum [0] [-1] (-1) 0 3) :=
  ⟨by norm_num, by norm_num,
    C9_line_search List.sum [0] [-1] (-1) 0 3 (by norm_num) (by norm_num)⟩

end SimPEG
